import Mathlib

/-!
Verification of the price-comparison UI logic.

Shallow embedding of the browser-side logic of the `ss` price-comparison
tool, together with theorems about it.

Modelling conventions:
* JavaScript numbers are modelled as rationals (`ℚ`); the JSON payloads the
  code consumes cannot carry `Infinity`, and `NaN` is modelled explicitly
  where the code tests for it (the `price` field of a history entry).
* A JS value that may be `null`/`undefined` is modelled as an `Option`.
* `historyData` being `null`, `undefined`, or not an array all take the same
  early-return branch in the source; they are collapsed into `none`.
-/

namespace SS

/-- A product as consumed by `PriceChart` (`product?.price` is the only field
the statistics code reads). -/
structure Product where
  price : ℚ
  deriving Repr, DecidableEq

/-- The JS value sitting in the `price` field of a raw history entry:
a finite number, `NaN`, or something that is not a number at all
(string, `null`, object, `undefined`...). -/
inductive JsNum where
  | num (q : ℚ)
  | nan
  | other
  deriving Repr, DecidableEq

/-- One raw entry of the `historyData` array: a `price` field of arbitrary
JS type and an optional `date` string. -/
structure HistEntry where
  price : JsNum
  date : Option String
  deriving Repr, DecidableEq

/-- The record returned by `calculateStats` in `PriceChart.js`. -/
structure Stats where
  lowestPrice : ℚ
  highestPrice : ℚ
  averagePrice : ℚ
  current : ℚ
  priceChange : ℚ
  priceChangePercent : ℚ
  lowestDate : Option String
  highestDate : Option String
  daysTracked : ℕ
  deriving Repr, DecidableEq

/-- `item && typeof item.price === 'number' && !isNaN(item.price) && item.price > 0`
restricted to the `price` field: a finite number that is strictly positive. -/
def isValidPrice : JsNum → Bool
  | .num q => decide (0 < q)
  | .nan => false
  | .other => false

/-- Numeric value of a `price` field; only evaluated on entries that passed
`isValidPrice`, so the value for non-numbers is irrelevant. -/
def numVal : JsNum → ℚ
  | .num q => q
  | .nan => 0
  | .other => 0

/-- The `historyData.filter(item => item && typeof item.price === 'number'
&& !isNaN(item.price) && item.price > 0)` step: drops `null` items and items
whose price is not a finite positive number, unwrapping the survivors. -/
def validEntries (hist : List (Option HistEntry)) : List HistEntry :=
  hist.filterMap fun it =>
    it.bind fun e => if isValidPrice e.price then some e else none

/-- `Math.min(...prices)` on a nonempty spread (`0` stands for the
unreachable empty case, where JS would give `Infinity`). -/
def listMin : List ℚ → ℚ
  | [] => 0
  | q :: qs => qs.foldl min q

/-- `Math.max(...prices)` on a nonempty spread (`0` stands for the
unreachable empty case, where JS would give `-Infinity`). -/
def listMax : List ℚ → ℚ
  | [] => 0
  | q :: qs => qs.foldl max q

/-- `x?.date || null`: a missing date stays `null`, and a falsy (empty)
date string is coerced to `null`. -/
def dateOrNull : Option String → Option String
  | some s => if s = "" then none else some s
  | none => none

/-- `const defaultPrice = product?.price || 0`: `0` when there is no
product; `price || 0` is the identity on rationals (`0 || 0` is `0`). -/
def defaultPriceOf : Option Product → ℚ
  | none => 0
  | some p => p.price

/-- The early-return / catch-branch record of `calculateStats`: every price
statistic equals the fallback price, both change figures are `0`. -/
def fallbackStats (defaultPrice : ℚ) : Stats where
  lowestPrice := defaultPrice
  highestPrice := defaultPrice
  averagePrice := defaultPrice
  current := defaultPrice
  priceChange := 0
  priceChangePercent := 0
  lowestDate := none
  highestDate := none
  daysTracked := 0

/-- `calculateStats` from `PriceChart.js` (lines 19–91).  The source wraps
the main path in `try`/`catch` and the only `throw` is the explicit one on
an empty filtered list, so the whole computation is total: the catch branch
is the `[]` case below. -/
def calculateStats (historyData : Option (List (Option HistEntry)))
    (product : Option Product) : Stats :=
  let defaultPrice := defaultPriceOf product
  match historyData with
  | none => fallbackStats defaultPrice
  | some hist =>
    if hist.isEmpty then fallbackStats defaultPrice
    else
      match validEntries hist with
      | [] => fallbackStats defaultPrice
      | e :: es =>
        let validData := e :: es
        let prices := validData.map fun it => numVal it.price
        let lowestPrice := listMin prices
        let highestPrice := listMax prices
        let averagePrice := prices.foldl (· + ·) 0 / (prices.length : ℚ)
        let lowestPriceItem := validData.find? fun it => numVal it.price == lowestPrice
        let highestPriceItem := validData.find? fun it => numVal it.price == highestPrice
        let current := prices.getLastD 0
        let first := prices.headD 0
        let priceChange := current - first
        let priceChangePercent := if 0 < first then priceChange / first * 100 else 0
        { lowestPrice := lowestPrice
          highestPrice := highestPrice
          averagePrice := averagePrice
          current := current
          priceChange := priceChange
          priceChangePercent := priceChangePercent
          lowestDate := dateOrNull (lowestPriceItem.bind HistEntry.date)
          highestDate := dateOrNull (highestPriceItem.bind HistEntry.date)
          daysTracked := validData.length }

/-- The filtered history for an arbitrary (possibly `null`) raw list. -/
def validEntriesOf : Option (List (Option HistEntry)) → List HistEntry
  | none => []
  | some hist => validEntries hist

/-- When no entry survives the filter, `calculateStats` lands in one of its
fallback branches (early return or catch). -/
theorem calculateStats_eq_fallback
    (historyData : Option (List (Option HistEntry))) (product : Option Product)
    (h : validEntriesOf historyData = []) :
    calculateStats historyData product = fallbackStats (defaultPriceOf product) := by
  cases historyData with
  | none => rfl
  | some hist =>
    simp only [validEntriesOf] at h
    unfold calculateStats
    by_cases hemp : hist.isEmpty
    · simp [hemp]
    · simp [hemp, h]

/-- C1: whenever no entry survives the validity filter (in particular for a
null, empty, or entirely malformed history list), `calculateStats` returns
every price statistic equal to the fallback price taken from the product
being viewed, with both change figures zero. -/
theorem calculateStats_fallback_of_no_valid_entries
    (historyData : Option (List (Option HistEntry))) (product : Option Product)
    (h : validEntriesOf historyData = []) :
    let s := calculateStats historyData product
    let d := defaultPriceOf product
    s.lowestPrice = d ∧ s.highestPrice = d ∧ s.averagePrice = d ∧
      s.current = d ∧ s.priceChange = 0 ∧ s.priceChangePercent = 0 := by
  intro s d
  have hs : s = fallbackStats d := calculateStats_eq_fallback historyData product h
  rw [hs]
  exact ⟨rfl, rfl, rfl, rfl, rfl, rfl⟩

/-- Witness for C1: a malformed two-entry history (a `null` item and a
`NaN`-priced item) with a product priced 42 yields the all-fallback stats. -/
theorem calculateStats_fallback_witness :
    let s := calculateStats (some [none, some ⟨JsNum.nan, some "2024-01-01"⟩])
      (some ⟨42⟩)
    s.lowestPrice = 42 ∧ s.highestPrice = 42 ∧ s.averagePrice = 42 ∧
      s.current = 42 ∧ s.priceChange = 0 ∧ s.priceChangePercent = 0 :=
  calculateStats_fallback_of_no_valid_entries
    (some [none, some ⟨JsNum.nan, some "2024-01-01"⟩]) (some ⟨42⟩) (by decide)

/-- C7: for any raw history list and any nonnegative fallback price, the
stats calculation is total (the embedding is a plain function: the source
catches its single internal `throw`) and `daysTracked` equals the number of
entries passing the validity filter. -/
theorem calculateStats_daysTracked
    (historyData : Option (List (Option HistEntry))) (product : Option Product)
    (hd : 0 ≤ defaultPriceOf product) :
    (calculateStats historyData product).daysTracked =
      (validEntriesOf historyData).length := by
  cases historyData with
  | none => rfl
  | some hist =>
    unfold calculateStats validEntriesOf
    by_cases hemp : hist.isEmpty
    · have : validEntries hist = [] := by
        rw [List.isEmpty_iff] at hemp
        simp [validEntries, hemp]
      simp [hemp, this, fallbackStats]
    · cases hval : validEntries hist with
      | nil => simp [hemp, hval, fallbackStats]
      | cons e es => simp [hemp, hval]

/-- Witness for C7: a history with one valid, one `NaN` and one `null`
entry tracks exactly one day. -/
theorem calculateStats_daysTracked_witness :
    (calculateStats
        (some [some ⟨JsNum.num 10, some "2024-01-01"⟩, some ⟨JsNum.nan, none⟩, none])
        (some ⟨7⟩)).daysTracked =
      (validEntriesOf
        (some [some ⟨JsNum.num 10, some "2024-01-01"⟩, some ⟨JsNum.nan, none⟩, none])).length :=
  calculateStats_daysTracked
    (some [some ⟨JsNum.num 10, some "2024-01-01"⟩, some ⟨JsNum.nan, none⟩, none])
    (some ⟨7⟩) (by decide)

/-- Unfolding of `calculateStats` on the main (nonempty filtered history)
branch, in terms of the filtered entry list. -/
theorem calculateStats_main (historyData : Option (List (Option HistEntry)))
    (product : Option Product) (e : HistEntry) (es : List HistEntry)
    (h : validEntriesOf historyData = e :: es) :
    calculateStats historyData product =
      (let validData := e :: es
       let prices := validData.map fun it => numVal it.price
       { lowestPrice := listMin prices
         highestPrice := listMax prices
         averagePrice := prices.foldl (· + ·) 0 / (prices.length : ℚ)
         current := prices.getLastD 0
         priceChange := prices.getLastD 0 - prices.headD 0
         priceChangePercent :=
           if 0 < prices.headD 0 then
             (prices.getLastD 0 - prices.headD 0) / prices.headD 0 * 100
           else 0
         lowestDate := dateOrNull
           ((validData.find? fun it => numVal it.price == listMin prices).bind
             HistEntry.date)
         highestDate := dateOrNull
           ((validData.find? fun it => numVal it.price == listMax prices).bind
             HistEntry.date)
         daysTracked := validData.length } : Stats) := by
  cases historyData with
  | none => simp [validEntriesOf] at h
  | some hist =>
    simp only [validEntriesOf] at h
    have hne : ¬ hist.isEmpty := by
      intro hemp
      rw [List.isEmpty_iff] at hemp
      subst hemp
      simp [validEntries] at h
    unfold calculateStats
    simp [hne, h]

section MinMaxLemmas

theorem foldl_min_le_init (l : List ℚ) (a : ℚ) : l.foldl min a ≤ a := by
  induction l generalizing a with
  | nil => exact le_refl a
  | cons q qs ih => exact le_trans (ih (min a q)) (min_le_left a q)

theorem foldl_min_le_mem (l : List ℚ) (a x : ℚ) (hx : x ∈ l) :
    l.foldl min a ≤ x := by
  induction l generalizing a with
  | nil => cases hx
  | cons q qs ih =>
    rcases List.mem_cons.mp hx with rfl | hx'
    · exact le_trans (foldl_min_le_init qs (min a x)) (min_le_right a x)
    · exact ih (min a q) hx'

theorem foldl_min_mem (l : List ℚ) (a : ℚ) :
    l.foldl min a = a ∨ l.foldl min a ∈ l := by
  induction l generalizing a with
  | nil => exact Or.inl rfl
  | cons q qs ih =>
    rcases ih (min a q) with heq | hmem
    · rcases min_choice a q with h1 | h1
      · exact Or.inl (by rw [List.foldl_cons, heq, h1])
      · exact Or.inr (by rw [List.foldl_cons, heq, h1]; exact List.mem_cons_self q qs)
    · exact Or.inr (List.mem_cons_of_mem q hmem)

theorem init_le_foldl_max (l : List ℚ) (a : ℚ) : a ≤ l.foldl max a := by
  induction l generalizing a with
  | nil => exact le_refl a
  | cons q qs ih => exact le_trans (le_max_left a q) (ih (max a q))

theorem mem_le_foldl_max (l : List ℚ) (a x : ℚ) (hx : x ∈ l) :
    x ≤ l.foldl max a := by
  induction l generalizing a with
  | nil => cases hx
  | cons q qs ih =>
    rcases List.mem_cons.mp hx with rfl | hx'
    · exact le_trans (le_max_right a x) (init_le_foldl_max qs (max a x))
    · exact ih (max a q) hx'

theorem foldl_max_mem (l : List ℚ) (a : ℚ) :
    l.foldl max a = a ∨ l.foldl max a ∈ l := by
  induction l generalizing a with
  | nil => exact Or.inl rfl
  | cons q qs ih =>
    rcases ih (max a q) with heq | hmem
    · rcases max_choice a q with h1 | h1
      · exact Or.inl (by rw [List.foldl_cons, heq, h1])
      · exact Or.inr (by rw [List.foldl_cons, heq, h1]; exact List.mem_cons_self q qs)
    · exact Or.inr (List.mem_cons_of_mem q hmem)

theorem listMin_le_mem (l : List ℚ) (x : ℚ) (hx : x ∈ l) : listMin l ≤ x := by
  cases l with
  | nil => cases hx
  | cons q qs =>
    rcases List.mem_cons.mp hx with rfl | hx'
    · exact foldl_min_le_init qs x
    · show qs.foldl min q ≤ x
      exact foldl_min_le_mem qs q x hx'

theorem mem_le_listMax (l : List ℚ) (x : ℚ) (hx : x ∈ l) : x ≤ listMax l := by
  cases l with
  | nil => cases hx
  | cons q qs =>
    rcases List.mem_cons.mp hx with rfl | hx'
    · exact init_le_foldl_max qs x
    · show x ≤ qs.foldl max q
      exact mem_le_foldl_max qs q x hx'

theorem listMin_mem (l : List ℚ) (h : l ≠ []) : listMin l ∈ l := by
  cases l with
  | nil => exact absurd rfl h
  | cons q qs =>
    show qs.foldl min q ∈ q :: qs
    rcases foldl_min_mem qs q with heq | hmem
    · rw [heq]; exact List.mem_cons_self q qs
    · exact List.mem_cons_of_mem q hmem

theorem listMax_mem (l : List ℚ) (h : l ≠ []) : listMax l ∈ l := by
  cases l with
  | nil => exact absurd rfl h
  | cons q qs =>
    show qs.foldl max q ∈ q :: qs
    rcases foldl_max_mem qs q with heq | hmem
    · rw [heq]; exact List.mem_cons_self q qs
    · exact List.mem_cons_of_mem q hmem

theorem foldl_add_eq_sum (l : List ℚ) (a : ℚ) : l.foldl (· + ·) a = a + l.sum := by
  induction l generalizing a with
  | nil => simp
  | cons q qs ih => simp [ih (a + q), add_assoc]

end MinMaxLemmas

/-- C10: every output of `calculateStats` satisfies
`lowestPrice ≤ averagePrice ≤ highestPrice`: in the fallback path all
three equal the fallback price, and otherwise the arithmetic mean of the
filtered prices lies between their minimum and maximum. -/
theorem calculateStats_lowest_le_average_le_highest
    (historyData : Option (List (Option HistEntry))) (product : Option Product) :
    (calculateStats historyData product).lowestPrice ≤
        (calculateStats historyData product).averagePrice ∧
      (calculateStats historyData product).averagePrice ≤
        (calculateStats historyData product).highestPrice := by
  cases hval : validEntriesOf historyData with
  | nil =>
    rw [calculateStats_eq_fallback historyData product hval]
    exact ⟨le_rfl, le_rfl⟩
  | cons e es =>
    rw [calculateStats_main historyData product e es hval]
    simp only
    set prices := (e :: es).map fun it => numVal it.price with hprices
    have hne : prices ≠ [] := by simp [hprices]
    have hlen : (0 : ℚ) < (prices.length : ℚ) := by
      have : 0 < prices.length := List.length_pos.mpr hne
      exact_mod_cast this
    have hsum : prices.foldl (· + ·) 0 = prices.sum := by
      rw [foldl_add_eq_sum, zero_add]
    constructor
    · rw [hsum, le_div_iff₀ hlen, mul_comm]
      have hb := List.card_nsmul_le_sum prices (listMin prices)
        (fun x hx => listMin_le_mem prices x hx)
      rwa [nsmul_eq_mul] at hb
    · rw [hsum, div_le_iff₀ hlen, mul_comm]
      have hb := List.sum_le_card_nsmul prices (listMax prices)
        (fun x hx => mem_le_listMax prices x hx)
      rwa [nsmul_eq_mul] at hb

/-! ## Buy recommendation (`PriceChart.js` lines 394–434) -/

/-- The four branches of the buy-recommendation JSX cascade. -/
inductive Recommendation where
  | greatTime
  | wait
  | good
  | neutral
  deriving Repr, DecidableEq

/-- The rendered recommendation, read off the conditional chain
`stats.current <= stats.lowestPrice * 1.05 ? ... : stats.current >=
stats.highestPrice * 0.95 ? ... : stats.current < stats.averagePrice ?
... : ...`. -/
def buyRecommendation (s : Stats) : Recommendation :=
  if s.current ≤ s.lowestPrice * (105 / 100 : ℚ) then .greatTime
  else if s.current ≥ s.highestPrice * (95 / 100 : ℚ) then .wait
  else if s.current < s.averagePrice then .good
  else .neutral

/-- Modelled from the spec's words, for comparison with the code:
"great time" if current ≤ lowest×1.05; "wait" if current ≥ highest×0.95;
"good" if current < average; else "neutral", read as a first-match
cascade. -/
def buyRecommendationSpec (s : Stats) : Recommendation :=
  if s.current ≤ s.lowestPrice * (105 / 100 : ℚ) then .greatTime
  else if s.current ≥ s.highestPrice * (95 / 100 : ℚ) then .wait
  else if s.current < s.averagePrice then .good
  else .neutral

/-- C2: the rendered classification agrees with the spec's cascade, and in
particular any stats with `lowest = 100`, `current = 104` (and current
below `highest × 0.95`) classify as "great time to buy". -/
theorem buyRecommendation_correct :
    (∀ s : Stats, buyRecommendation s = buyRecommendationSpec s) ∧
      ∀ s : Stats, s.lowestPrice = 100 → s.current = 104 →
        s.current < s.highestPrice * (95 / 100 : ℚ) →
        buyRecommendation s = Recommendation.greatTime := by
  refine ⟨fun s => rfl, fun s hlo hcur _ => ?_⟩
  unfold buyRecommendation
  rw [hlo, hcur]
  norm_num

/-- Witness for C2 at concrete stats (lowest 100, highest 200, average 150,
current 104). -/
theorem buyRecommendation_witness :
    buyRecommendation ⟨100, 200, 150, 104, 0, 0, none, none, 1⟩ =
      Recommendation.greatTime :=
  buyRecommendation_correct.2 ⟨100, 200, 150, 104, 0, 0, none, none, 1⟩
    rfl rfl (by norm_num)

/-! ## Recorded dates of the lowest / highest price (C8) -/

/-- C8 counterexample input: a single filtered entry whose price is the
minimum and whose `date` is the empty string. -/
theorem calculateStats_lowestDate_empty_string_counterexample :
    validEntriesOf (some [some ⟨JsNum.num 5, some ""⟩]) =
        [⟨JsNum.num 5, some ""⟩] ∧
      (⟨JsNum.num 5, some ""⟩ : HistEntry).date = some "" ∧
      (calculateStats (some [some ⟨JsNum.num 5, some ""⟩]) none).lowestDate =
        none ∧
      (none : Option String) ≠ some "" := by
  refine ⟨by decide, rfl, ?_, by decide⟩
  rw [calculateStats_main (some [some ⟨JsNum.num 5, some ""⟩]) none
    ⟨JsNum.num 5, some ""⟩ [] (by decide)]
  rfl

/-- C8 (amended): when the filtered history is nonempty, `lowestDate`
(resp. `highestDate`) is the `dateOrNull`-coercion of the date of the first
entry in filtered order whose price equals the minimum (resp. maximum);
ties between equal prices are resolved by first occurrence in filtered
order. -/
theorem calculateStats_minmax_dates
    (historyData : Option (List (Option HistEntry))) (product : Option Product)
    (e : HistEntry) (es : List HistEntry)
    (h : validEntriesOf historyData = e :: es) :
    (∃ pre eLo post, e :: es = pre ++ eLo :: post ∧
        numVal eLo.price = listMin ((e :: es).map fun it => numVal it.price) ∧
        (∀ x ∈ pre,
          numVal x.price ≠ listMin ((e :: es).map fun it => numVal it.price)) ∧
        (calculateStats historyData product).lowestDate = dateOrNull eLo.date) ∧
      ∃ pre eHi post, e :: es = pre ++ eHi :: post ∧
        numVal eHi.price = listMax ((e :: es).map fun it => numVal it.price) ∧
        (∀ x ∈ pre,
          numVal x.price ≠ listMax ((e :: es).map fun it => numVal it.price)) ∧
        (calculateStats historyData product).highestDate = dateOrNull eHi.date := by
  rw [calculateStats_main historyData product e es h]
  simp only
  set prices := (e :: es).map fun it => numVal it.price with hprices
  have hne : prices ≠ [] := by simp [hprices]
  constructor
  · have hmem : listMin prices ∈ prices := listMin_mem prices hne
    rw [hprices] at hmem
    obtain ⟨it, hit, hval⟩ := List.mem_map.mp hmem
    have hsome : ((e :: es).find? fun x => numVal x.price == listMin prices).isSome :=
      List.find?_isSome.mpr ⟨it, hit, by rw [beq_iff_eq]; exact hval⟩
    obtain ⟨eLo, hfind⟩ := Option.isSome_iff_exists.mp hsome
    obtain ⟨hpLo, pre, post, hsplit, hpre⟩ := List.find?_eq_some.mp hfind
    refine ⟨pre, eLo, post, hsplit, beq_iff_eq.mp hpLo, ?_, ?_⟩
    · intro x hx
      have := hpre x hx
      simpa using this
    · rw [hfind]
      rfl
  · have hmem : listMax prices ∈ prices := listMax_mem prices hne
    rw [hprices] at hmem
    obtain ⟨it, hit, hval⟩ := List.mem_map.mp hmem
    have hsome : ((e :: es).find? fun x => numVal x.price == listMax prices).isSome :=
      List.find?_isSome.mpr ⟨it, hit, by rw [beq_iff_eq]; exact hval⟩
    obtain ⟨eHi, hfind⟩ := Option.isSome_iff_exists.mp hsome
    obtain ⟨hpHi, pre, post, hsplit, hpre⟩ := List.find?_eq_some.mp hfind
    refine ⟨pre, eHi, post, hsplit, beq_iff_eq.mp hpHi, ?_, ?_⟩
    · intro x hx
      have := hpre x hx
      simpa using this
    · rw [hfind]
      rfl

/-- Witness for C8 (amended): two entries tied at the minimum price 5 with
different dates; the first one's date is recorded. -/
theorem calculateStats_minmax_dates_witness :
    (∃ pre eLo post,
        ([⟨JsNum.num 5, some "d1"⟩, ⟨JsNum.num 5, some "d2"⟩] : List HistEntry) =
          pre ++ eLo :: post ∧
        numVal eLo.price =
          listMin (([⟨JsNum.num 5, some "d1"⟩, ⟨JsNum.num 5, some "d2"⟩] :
            List HistEntry).map fun it => numVal it.price) ∧
        (∀ x ∈ pre, numVal x.price ≠
          listMin (([⟨JsNum.num 5, some "d1"⟩, ⟨JsNum.num 5, some "d2"⟩] :
            List HistEntry).map fun it => numVal it.price)) ∧
        (calculateStats
          (some [some ⟨JsNum.num 5, some "d1"⟩, some ⟨JsNum.num 5, some "d2"⟩])
          none).lowestDate = dateOrNull eLo.date) ∧
      ∃ pre eHi post,
        ([⟨JsNum.num 5, some "d1"⟩, ⟨JsNum.num 5, some "d2"⟩] : List HistEntry) =
          pre ++ eHi :: post ∧
        numVal eHi.price =
          listMax (([⟨JsNum.num 5, some "d1"⟩, ⟨JsNum.num 5, some "d2"⟩] :
            List HistEntry).map fun it => numVal it.price) ∧
        (∀ x ∈ pre, numVal x.price ≠
          listMax (([⟨JsNum.num 5, some "d1"⟩, ⟨JsNum.num 5, some "d2"⟩] :
            List HistEntry).map fun it => numVal it.price)) ∧
        (calculateStats
          (some [some ⟨JsNum.num 5, some "d1"⟩, some ⟨JsNum.num 5, some "d2"⟩])
          none).highestDate = dateOrNull eHi.date :=
  calculateStats_minmax_dates
    (some [some ⟨JsNum.num 5, some "d1"⟩, some ⟨JsNum.num 5, some "d2"⟩]) none
    ⟨JsNum.num 5, some "d1"⟩ [⟨JsNum.num 5, some "d2"⟩] (by decide)

/-! ## API client (`src/unnamed/part_000`)

The three operations `searchProducts`, `getPriceHistory` and `updatePrices`
issue one request each and normalize failures.  A response is modelled by
its success flag, status code and body; `bodyJson` is the outcome of
`await response.json()` (`none` when parsing throws) and `bodyText` the
outcome of `await response.text()`.  The body is modelled as re-readable;
the `textError` fallback catch of the source (for an unreadable body) is
therefore never taken.  Each operation's outer
`catch (error) { throw new Error(error.message || '<generic>') }` rewrap is
modelled on the throwing branch (its only reachable effect, since `fetch`
itself rejecting — a network failure — is outside the model of a given
response).  The query/product arguments of the source functions only shape
the request URL, not the response handling, so they are omitted;
`searchProducts` keeps a `now` parameter for `new Date().toISOString()`. -/

/-- A JSON-ish JavaScript value. -/
inductive JsValue where
  | nullv
  | boolv (b : Bool)
  | numv (q : ℚ)
  | strv (s : String)
  | arrv (elements : List JsValue)
  | objv (fields : List (String × JsValue))

/-- JS truthiness of a value (`NaN` is not representable in `numv`). -/
def jsTruthy : JsValue → Bool
  | .nullv => false
  | .boolv b => b
  | .numv q => decide (q ≠ 0)
  | .strv s => decide (s ≠ "")
  | .arrv _ => true
  | .objv _ => true

/-- `String(n)` for a number.  Integers are rendered exactly; the shortest
round-trip decimal rendering of non-integers is not modelled (no theorem
below evaluates it). -/
def ratToJsString (q : ℚ) : String :=
  if q.den = 1 then toString q.num else toString q

mutual

/-- `String(v)`: the coercion applied by `new Error(message)` when the
message is not already a string.  Objects render as `[object Object]`,
arrays join their elements with commas. -/
def jsToString : JsValue → String
  | .nullv => "null"
  | .boolv b => if b then "true" else "false"
  | .numv q => ratToJsString q
  | .strv s => s
  | .arrv xs => jsArrayToString xs
  | .objv _ => "[object Object]"

/-- `Array.prototype.toString`: elements joined by commas, with `null`
elements rendered as the empty string. -/
def jsArrayToString : List JsValue → String
  | [] => ""
  | [x] => jsElemToString x
  | x :: xs => jsElemToString x ++ "," ++ jsArrayToString xs

/-- One array element under `Array.prototype.toString`. -/
def jsElemToString : JsValue → String
  | .nullv => ""
  | v => jsToString v

end

/-- Property access `obj[key]` on a parsed JSON object (`JSON.parse` keeps
the last occurrence of a duplicated key); `none` plays `undefined`. -/
def getField (j : JsValue) (key : String) : Option JsValue :=
  match j with
  | .objv fields =>
    fields.foldl (fun acc kv => if kv.1 = key then some kv.2 else acc) none
  | _ => none

/-- An HTTP response as observed by the API client. -/
structure HttpResponse where
  ok : Bool
  status : Nat
  bodyText : String
  bodyJson : Option JsValue

/-- JS `String.prototype.length`: the number of UTF-16 code units (an
astral codepoint counts as two). -/
def utf16Length (s : String) : Nat :=
  s.data.foldl (fun n c => n + (if c.toNat < 65536 then 1 else 2)) 0

/-- The error-message normalization shared (textually repeated) by all
three operations: on a parseable JSON body, a truthy `error` field wins and
anything else keeps the operation's default message; on an unparseable
body, a nonempty text body shorter than 100 UTF-16 units wins, else a
generic message embedding the status code. -/
def resolveErrorMessage (defaultMsg : String) (r : HttpResponse) : String :=
  match r.bodyJson with
  | some j =>
    match getField j "error" with
    | some v => if jsTruthy v then jsToString v else defaultMsg
    | none => defaultMsg
  | none =>
    if r.bodyText ≠ "" ∧ utf16Length r.bodyText < 100 then r.bodyText
    else "Server error (" ++ toString r.status ++ ")"

/-- The outer `catch (error) { throw new Error(error.message ||
'<generic>') }` of each operation: the inner throw's message is kept when
truthy (nonempty), else replaced by the operation's outer generic
message.  A truthy JSON `error` value that stringifies to the empty
string (for example `[]`) takes this replacement. -/
def rethrowMessage (outerMsg : String) (m : String) : String :=
  if m = "" then outerMsg else m

/-- `searchProducts`: throws the normalized (and outer-catch rewrapped)
message on a non-ok response; on an ok response returns the parsed body, or
the empty per-store result set when the body is not parseable JSON. -/
def searchProducts (now : String) (r : HttpResponse) : Except String JsValue :=
  if r.ok then
    match r.bodyJson with
    | some j => .ok j
    | none => .ok (.objv
        [("amazon", .arrv []), ("flipkart", .arrv []), ("timestamp", .strv now)])
  else .error (rethrowMessage "An error occurred while searching for products"
    (resolveErrorMessage "Failed to search for products" r))

/-- `getPriceHistory`: same contract, with `[]` as the unparseable-body
fallback. -/
def getPriceHistory (r : HttpResponse) : Except String JsValue :=
  if r.ok then
    match r.bodyJson with
    | some j => .ok j
    | none => .ok (.arrv [])
  else .error (rethrowMessage "An error occurred while fetching price history"
    (resolveErrorMessage "Failed to fetch price history" r))

/-- `updatePrices`: same contract, with a placeholder acknowledgement
object as the unparseable-body fallback. -/
def updatePrices (r : HttpResponse) : Except String JsValue :=
  if r.ok then
    match r.bodyJson with
    | some j => .ok j
    | none => .ok (.objv [("message",
        .strv "Operation completed, but response was not valid JSON")])
  else .error (rethrowMessage "An error occurred while updating prices"
    (resolveErrorMessage "Failed to update prices" r))

/-- C4: on every ok response whose body is not parseable JSON, no operation
throws: `searchProducts` returns the empty per-store result set,
`getPriceHistory` returns `[]`, and `updatePrices` returns a placeholder
acknowledgement object containing a message. -/
theorem api_ok_unparseable_fallbacks (r : HttpResponse) (now : String)
    (hok : r.ok = true) (hjson : r.bodyJson = none) :
    searchProducts now r = .ok (.objv
        [("amazon", .arrv []), ("flipkart", .arrv []), ("timestamp", .strv now)]) ∧
      getPriceHistory r = .ok (.arrv []) ∧
      updatePrices r = .ok (.objv [("message",
        .strv "Operation completed, but response was not valid JSON")]) ∧
      getField
        (.objv [("message",
          .strv "Operation completed, but response was not valid JSON")])
        "message" =
        some (.strv "Operation completed, but response was not valid JSON") := by
  refine ⟨?_, ?_, ?_, rfl⟩
  · simp [searchProducts, hok, hjson]
  · simp [getPriceHistory, hok, hjson]
  · simp [updatePrices, hok, hjson]

/-- Witness for C4: a 200 response whose body is not valid JSON. -/
theorem api_ok_unparseable_fallbacks_witness :
    searchProducts "2024-01-01T00:00:00Z" ⟨true, 200, "<html>", none⟩ =
        .ok (.objv [("amazon", .arrv []), ("flipkart", .arrv []),
          ("timestamp", .strv "2024-01-01T00:00:00Z")]) ∧
      getPriceHistory ⟨true, 200, "<html>", none⟩ = .ok (.arrv []) ∧
      updatePrices ⟨true, 200, "<html>", none⟩ = .ok (.objv [("message",
        .strv "Operation completed, but response was not valid JSON")]) ∧
      getField
        (.objv [("message",
          .strv "Operation completed, but response was not valid JSON")])
        "message" =
        some (.strv "Operation completed, but response was not valid JSON") :=
  api_ok_unparseable_fallbacks ⟨true, 200, "<html>", none⟩ "2024-01-01T00:00:00Z"
    rfl rfl

/-! ## Comparison table sorting (`ProductCard.js` lines 237–253)

`sortedProducts` copies the incoming array and sorts it with the
single-key two-direction comparator.  `Array.prototype.sort` with a
consistent comparator `cmp` is (since ES2019) a stable sort placing `a`
before `b` whenever `cmp a b ≤ 0`; it is modelled by `List.mergeSort` with
the boolean relation `cmp a b ≤ 0`, which is exactly the stable sort by
that relation.  Only the numeric sort keys of the table are modelled. -/

/-- A row of the comparison table, restricted to the numeric sortable
fields; a missing (`undefined`) field is `none`. -/
structure TProduct where
  price : Option ℚ
  discount : Option ℚ
  rating : Option ℚ
  deriving Repr, DecidableEq

/-- The two sort directions of `sortConfig.direction`. -/
inductive SortDirection where
  | ascending
  | descending
  deriving Repr, DecidableEq

/-- `a[sortConfig.key]` for the numeric keys. -/
def sortKeyValue (p : TProduct) : String → Option ℚ
  | "price" => p.price
  | "discount" => p.discount
  | "rating" => p.rating
  | _ => none

/-- `a[sortConfig.key] ?? 0`: missing values are coerced to `0`. -/
def coercedKeyValue (p : TProduct) (key : String) : ℚ :=
  (sortKeyValue p key).getD 0

/-- The comparator body (`aValue`/`bValue` inlined): `-1`/`1` according to
direction when the coerced values differ, `0` otherwise. -/
def compareProducts (key : String) (dir : SortDirection) (a b : TProduct) : Int :=
  if coercedKeyValue a key < coercedKeyValue b key then
    match dir with | .ascending => -1 | .descending => 1
  else if coercedKeyValue b key < coercedKeyValue a key then
    match dir with | .ascending => 1 | .descending => -1
  else 0

/-- `sortedProducts`: `[]` when the input is missing or not an array, else
the stable sort of a copy of the list under the comparator. -/
def sortedProducts (products : Option (List TProduct)) (key : String)
    (dir : SortDirection) : List TProduct :=
  match products with
  | none => []
  | some ps => ps.mergeSort fun a b => decide (compareProducts key dir a b ≤ 0)

/-- The boolean relation under which `mergeSort` models the ascending
price sort: comparator result ≤ 0. -/
def priceAscLe (a b : TProduct) : Bool :=
  decide (compareProducts "price" SortDirection.ascending a b ≤ 0)

theorem compareProducts_ascending_nonpos (key : String) (a b : TProduct) :
    compareProducts key SortDirection.ascending a b ≤ 0 ↔
      coercedKeyValue a key ≤ coercedKeyValue b key := by
  unfold compareProducts
  by_cases h1 : coercedKeyValue a key < coercedKeyValue b key
  · rw [if_pos h1]
    exact iff_of_true (by norm_num) h1.le
  · rw [if_neg h1]
    by_cases h2 : coercedKeyValue b key < coercedKeyValue a key
    · rw [if_pos h2]
      exact iff_of_false (by norm_num) (not_le.mpr h2)
    · rw [if_neg h2]
      exact iff_of_true le_rfl (le_of_not_lt h2)

/-- C5: sorting by `"price"` ascending yields a sequence that is
non-decreasing on the coerced values, hence non-decreasing on the visible
price field over all rows with defined prices; and the comparator treats a
missing sort-key value exactly like the value `0`. -/
theorem sortedProducts_price_ascending (ps : List TProduct) :
    List.Pairwise
        (fun a b => ∀ x y, a.price = some x → b.price = some y → x ≤ y)
        (sortedProducts (some ps) "price" SortDirection.ascending) ∧
      (∀ dir (a b : TProduct), a.price = none →
        compareProducts "price" dir a b =
          compareProducts "price" dir { a with price := some 0 } b) ∧
      ∀ dir (a b : TProduct), b.price = none →
        compareProducts "price" dir a b =
          compareProducts "price" dir a { b with price := some 0 } := by
  have key : ∀ a b : TProduct, priceAscLe a b = true ↔
      coercedKeyValue a "price" ≤ coercedKeyValue b "price" := by
    intro a b
    simp only [priceAscLe, decide_eq_true_eq]
    exact compareProducts_ascending_nonpos "price" a b
  refine ⟨?_, ?_, ?_⟩
  · have htrans : ∀ a b c : TProduct,
        priceAscLe a b → priceAscLe b c → priceAscLe a c :=
      fun a b c hab hbc =>
        (key a c).mpr (le_trans ((key a b).mp hab) ((key b c).mp hbc))
    have htotal : ∀ a b : TProduct, priceAscLe a b || priceAscLe b a := by
      intro a b
      rcases le_total (coercedKeyValue a "price") (coercedKeyValue b "price")
        with h | h
      · rw [Bool.or_eq_true]; exact Or.inl ((key a b).mpr h)
      · rw [Bool.or_eq_true]; exact Or.inr ((key b a).mpr h)
    have hsorted := @List.sorted_mergeSort TProduct priceAscLe htrans htotal ps
    show List.Pairwise _ (ps.mergeSort priceAscLe)
    refine hsorted.imp ?_
    intro a b hab x y hax hby
    have hle := (key a b).mp hab
    unfold coercedKeyValue sortKeyValue at hle
    rw [hax, hby] at hle
    exact hle
  · intro dir a b ha
    have hval : coercedKeyValue a "price" =
        coercedKeyValue { a with price := some 0 } "price" := by
      simp [coercedKeyValue, sortKeyValue, ha]
    unfold compareProducts
    rw [hval]
  · intro dir a b hb
    have hval : coercedKeyValue b "price" =
        coercedKeyValue { b with price := some 0 } "price" := by
      simp [coercedKeyValue, sortKeyValue, hb]
    unfold compareProducts
    rw [hval]

/-- Witness for C5: a row with a missing price compares as if it were
priced `0`. -/
theorem sortedProducts_price_ascending_witness :
    compareProducts "price" SortDirection.ascending ⟨none, none, none⟩
        ⟨some 3, none, none⟩ =
      compareProducts "price" SortDirection.ascending ⟨some 0, none, none⟩
        ⟨some 3, none, none⟩ :=
  (sortedProducts_price_ascending []).2.1 SortDirection.ascending
    ⟨none, none, none⟩ ⟨some 3, none, none⟩ rfl

/-! ## Recent searches (`src/unnamed/part_000`, `saveSearch`) -/

/-- JS `String.prototype.trim`: strips leading and trailing whitespace
(kernel-computable rendition of `String.trim`). -/
def jsTrim (s : String) : String :=
  ⟨((s.data.dropWhile Char.isWhitespace).reverse.dropWhile
    Char.isWhitespace).reverse⟩

/-- `saveSearch`: a query with a blank trim is ignored; otherwise the query
is prepended to the previous list stripped of exact copies of it, and the
result is truncated to the 5 most recent entries (`slice(0, 5)`). -/
def saveSearch (searchQuery : String) (recentSearches : List String) :
    List String :=
  if jsTrim searchQuery = "" then recentSearches
  else (searchQuery :: recentSearches.filter fun s => s ≠ searchQuery).take 5

/-- C6 counterexample: the de-duplication only removes copies of the query
being saved, so a pre-existing duplicate in the stored list (length ≤ 5)
survives a save of a different query. -/
theorem saveSearch_duplicates_counterexample :
    (["a", "a"] : List String).length ≤ 5 ∧
      saveSearch "b" ["a", "a"] = ["b", "a", "a"] ∧
      ¬ (["b", "a", "a"] : List String).Nodup := by
  refine ⟨by decide, ?_, by decide⟩
  rfl

/-- One save step preserves duplicate-freeness and the length cap. -/
theorem saveSearch_step (q : String) (l : List String)
    (hnd : l.Nodup) (hlen : l.length ≤ 5) :
    (saveSearch q l).Nodup ∧ (saveSearch q l).length ≤ 5 := by
  unfold saveSearch
  by_cases hq : jsTrim q = ""
  · rw [if_pos hq]
    exact ⟨hnd, hlen⟩
  · rw [if_neg hq]
    constructor
    · have hcons : (q :: l.filter fun s => s ≠ q).Nodup := by
        rw [List.nodup_cons]
        refine ⟨?_, hnd.filter _⟩
        intro hmem
        have := List.of_mem_filter hmem
        simp at this
      exact hcons.sublist (List.take_sublist 5 _)
    · exact le_trans (List.length_take_le 5 _) le_rfl

/-- Any sequence of saves from a duplicate-free list of length ≤ 5 keeps
the list duplicate-free with length ≤ 5. -/
theorem saveSearch_foldl (qs : List String) (l : List String)
    (hnd : l.Nodup) (hlen : l.length ≤ 5) :
    (qs.foldl (fun acc q => saveSearch q acc) l).Nodup ∧
      (qs.foldl (fun acc q => saveSearch q acc) l).length ≤ 5 := by
  induction qs generalizing l with
  | nil => exact ⟨hnd, hlen⟩
  | cons q qs ih =>
    obtain ⟨h1, h2⟩ := saveSearch_step q l hnd hlen
    exact ih (saveSearch q l) h1 h2

/-- C6 (amended): starting from any duplicate-free list of at most 5
entries, after every save the list never exceeds 5 entries, contains no
exact duplicates (a repeated identical search keeps a single copy), the
most recently saved (nonblank) query is first, a blank query changes
nothing, and these invariants persist over every sequence of saves. -/
theorem saveSearch_invariants (q : String) (l : List String)
    (hnd : l.Nodup) (hlen : l.length ≤ 5) :
    (saveSearch q l).Nodup ∧ (saveSearch q l).length ≤ 5 ∧
      (jsTrim q ≠ "" → (saveSearch q l).head? = some q) ∧
      (jsTrim q = "" → saveSearch q l = l) ∧
      ∀ qs : List String,
        (qs.foldl (fun acc q => saveSearch q acc) l).Nodup ∧
          (qs.foldl (fun acc q => saveSearch q acc) l).length ≤ 5 := by
  obtain ⟨h1, h2⟩ := saveSearch_step q l hnd hlen
  refine ⟨h1, h2, ?_, ?_, fun qs => saveSearch_foldl qs l hnd hlen⟩
  · intro hq
    unfold saveSearch
    rw [if_neg hq]
    rfl
  · intro hq
    unfold saveSearch
    rw [if_pos hq]

/-- Witness for C6 (amended): saving "phone" twice onto a list already
containing it keeps a single copy up front. -/
theorem saveSearch_invariants_witness :
    (saveSearch "phone" ["phone", "tv"]).Nodup ∧
      (saveSearch "phone" ["phone", "tv"]).length ≤ 5 ∧
      (jsTrim "phone" ≠ "" → (saveSearch "phone" ["phone", "tv"]).head? = some "phone") ∧
      (jsTrim "phone" = "" → saveSearch "phone" ["phone", "tv"] = ["phone", "tv"]) ∧
      ∀ qs : List String,
        (qs.foldl (fun acc q => saveSearch q acc) ["phone", "tv"]).Nodup ∧
          (qs.foldl (fun acc q => saveSearch q acc) ["phone", "tv"]).length ≤ 5 :=
  saveSearch_invariants "phone" ["phone", "tv"] (by decide) (by decide)

/-! ## Best deal (`src/attached_assets/search-form.tsx`, `getBestDeal`) -/

/-- The per-store lists of one search result, as read by `getBestDeal`
(absent store keys are `none`). -/
structure SearchResultsData where
  amazon : Option (List Product)
  flipkart : Option (List Product)

/-- One iteration of the `forEach` loops: `lowestPrice` starts as
`Infinity` (modelled `none`), and a product strictly cheaper than the
running minimum replaces the running best deal. -/
def considerProduct (acc : Option Product × Option ℚ) (p : Product) :
    Option Product × Option ℚ :=
  match acc.2 with
  | none => (some p, some p.price)
  | some v => if p.price < v then (some p, some p.price) else acc

/-- `getBestDeal`: `null` without results, else the running minimum over
the amazon list followed by the flipkart list. -/
def getBestDeal (searchResults : Option SearchResultsData) : Option Product :=
  match searchResults with
  | none => none
  | some sr =>
    let acc0 : Option Product × Option ℚ := (none, none)
    let acc1 := match sr.amazon with
      | some l => l.foldl considerProduct acc0
      | none => acc0
    let acc2 := match sr.flipkart with
      | some l => l.foldl considerProduct acc1
      | none => acc1
    acc2.1

theorem foldl_considerProduct_spec (l : List Product)
    (acc : Option Product × Option ℚ)
    (hpair : ∀ bd, acc.1 = some bd → acc.2 = some bd.price) :
    (∀ bd, (l.foldl considerProduct acc).1 = some bd →
        (l.foldl considerProduct acc).2 = some bd.price) ∧
      (∀ v, (l.foldl considerProduct acc).2 = some v →
        (∀ p ∈ l, v ≤ p.price) ∧ ∀ w, acc.2 = some w → v ≤ w) ∧
      ((acc.2.isSome ∨ l ≠ []) →
        ∃ v, (l.foldl considerProduct acc).2 = some v) := by
  induction l generalizing acc with
  | nil =>
    refine ⟨hpair, ?_, ?_⟩
    · intro v hv
      simp only [List.foldl_nil] at hv
      refine ⟨fun p hp => absurd hp (List.not_mem_nil p), fun w hw => ?_⟩
      rw [hv] at hw
      injection hw with hvw
      exact le_of_eq hvw
    · rintro (hs | hne)
      · simp only [List.foldl_nil]
        exact Option.isSome_iff_exists.mp hs
      · exact absurd rfl hne
  | cons p rest ih =>
    obtain ⟨b, m⟩ := acc
    rw [List.foldl_cons]
    cases m with
    | none =>
      have hstep : considerProduct (b, none) p = (some p, some p.price) := rfl
      rw [hstep]
      have hpair' : ∀ bd,
          ((some p, some p.price) : Option Product × Option ℚ).1 = some bd →
            ((some p, some p.price) : Option Product × Option ℚ).2 =
              some bd.price := by
        intro bd hbd
        injection hbd with hbd
        rw [← hbd]
      obtain ⟨ih1, ih2, ih3⟩ := ih (some p, some p.price) hpair'
      refine ⟨ih1, ?_, fun _ => ih3 (Or.inl rfl)⟩
      intro v hv
      obtain ⟨hrest, hback⟩ := ih2 v hv
      refine ⟨?_, fun w hw => Option.noConfusion hw⟩
      intro x hx
      rcases List.mem_cons.mp hx with rfl | hx'
      · exact hback x.price rfl
      · exact hrest x hx'
    | some v0 =>
      by_cases hlt : p.price < v0
      · have hstep : considerProduct (b, some v0) p = (some p, some p.price) := by
          simp [considerProduct, hlt]
        rw [hstep]
        have hpair' : ∀ bd,
            ((some p, some p.price) : Option Product × Option ℚ).1 = some bd →
              ((some p, some p.price) : Option Product × Option ℚ).2 =
                some bd.price := by
          intro bd hbd
          injection hbd with hbd
          rw [← hbd]
        obtain ⟨ih1, ih2, ih3⟩ := ih (some p, some p.price) hpair'
        refine ⟨ih1, ?_, fun _ => ih3 (Or.inl rfl)⟩
        intro v hv
        obtain ⟨hrest, hback⟩ := ih2 v hv
        have hvp : v ≤ p.price := hback p.price rfl
        refine ⟨?_, fun w hw => ?_⟩
        · intro x hx
          rcases List.mem_cons.mp hx with rfl | hx'
          · exact hvp
          · exact hrest x hx'
        · injection hw with hw
          rw [← hw]
          exact le_trans hvp hlt.le
      · have hstep : considerProduct (b, some v0) p = (b, some v0) := by
          simp [considerProduct, hlt]
        rw [hstep]
        obtain ⟨ih1, ih2, ih3⟩ := ih (b, some v0) hpair
        refine ⟨ih1, ?_, fun _ => ih3 (Or.inl rfl)⟩
        intro v hv
        obtain ⟨hrest, hback⟩ := ih2 v hv
        have hvv0 : v ≤ v0 := hback v0 rfl
        refine ⟨?_, fun w hw => ?_⟩
        · intro x hx
          rcases List.mem_cons.mp hx with rfl | hx'
          · exact le_trans hvv0 (le_of_not_lt hlt)
          · exact hrest x hx'
        · injection hw with hw
          rw [← hw]
          exact hvv0

/-- C9: whenever `getBestDeal` produces a best deal, no product in any
store's list of that search result has a price strictly below the best
deal's price. -/
theorem getBestDeal_is_lowest (sr : SearchResultsData) (bd : Product)
    (h : getBestDeal (some sr) = some bd) :
    ∀ p ∈ sr.amazon.getD [] ++ sr.flipkart.getD [], ¬(p.price < bd.price) := by
  obtain ⟨am, fl⟩ := sr
  have hrw : getBestDeal (some ⟨am, fl⟩) =
      ((fl.getD []).foldl considerProduct
        ((am.getD []).foldl considerProduct (none, none))).1 := by
    cases am <;> cases fl <;> rfl
  rw [hrw] at h
  have hpair0 : ∀ bd',
      ((none, none) : Option Product × Option ℚ).1 = some bd' →
        ((none, none) : Option Product × Option ℚ).2 = some bd'.price :=
    fun bd' hbd' => Option.noConfusion hbd'
  obtain ⟨pair1, bound1, some1⟩ :=
    foldl_considerProduct_spec (am.getD []) (none, none) hpair0
  obtain ⟨pair2, bound2, some2⟩ :=
    foldl_considerProduct_spec (fl.getD [])
      ((am.getD []).foldl considerProduct (none, none)) pair1
  have hbd2 := pair2 bd h
  intro p hp
  rcases List.mem_append.mp hp with hpa | hpf
  · have hne : am.getD [] ≠ [] := fun hnil => List.not_mem_nil p (hnil ▸ hpa)
    obtain ⟨v1, hv1⟩ := some1 (Or.inr hne)
    have h1 := (bound1 v1 hv1).1 p hpa
    have h2 := (bound2 bd.price hbd2).2 v1 hv1
    exact not_lt.mpr (le_trans h2 h1)
  · exact not_lt.mpr ((bound2 bd.price hbd2).1 p hpf)

/-- Witness for C9: amazon offers 100 and 50, flipkart offers 75; the best
deal is the 50 product and 75 is not below it. -/
theorem getBestDeal_is_lowest_witness :
    ¬((⟨75⟩ : Product).price < (⟨50⟩ : Product).price) :=
  getBestDeal_is_lowest ⟨some [⟨100⟩, ⟨50⟩], some [⟨75⟩]⟩ ⟨50⟩ (by decide)
    ⟨75⟩ (by decide)

end SS
